import Mathlib

/-!
Verification of the sparse feature store of the 4D-Palate-Atlas repository
(src/binaryDataLoader.js, src/realDataConstants.js), as a shallow embedding.

Conventions of the embedding:
* A byte buffer (JS `ArrayBuffer`) is a `List Nat`, each entry a byte value.
* 32-bit values (both `uint32` cell indices and the bit patterns of
  `float32` values) are `Nat`s; `DataView.getFloat32` followed by a store
  into a `Float32Array` preserves the 32-bit pattern, so float values are
  carried as their raw little-endian 32-bit words and no floating-point
  arithmetic is modelled.
* A decoded JS string (`TextDecoder.decode`) is modelled by its byte list
  (the decoder is total and never throws, so this is faithful for every
  property below).
* A JS operation that throws is modelled by `Option`: `none` is a thrown
  exception escaping the modelled function.
-/

/-- A byte buffer: a list of byte values. -/
abbrev Bytes := List Nat

/-- A 32-bit word (a `uint32` or the bit pattern of a `float32`). -/
abbrev Word := Nat

/-- A decoded JS string, modelled by its UTF-8 byte list. -/
abbrev JsStr := List Nat

/-- `DataView.getUint32(offset, true)` (little-endian): reads 4 bytes at
`off`; throws (`none`) when fewer than 4 bytes remain, as the JS
`DataView` does. `getFloat32` reads the same 4 bytes; we keep its result
as the raw 32-bit word. -/
def readUint32 (buf : Bytes) (off : Nat) : Option Word :=
  match buf.drop off with
  | b0 :: b1 :: b2 :: b3 :: _ => some (b0 + 256 * b1 + 65536 * b2 + 16777216 * b3)
  | _ => none

/-- Little-endian encoding of a 32-bit word into 4 bytes, used to build
the on-disk records the decoder consumes (the wire format of §4.1). -/
def bytesOfUint32 (n : Nat) : Bytes :=
  [n % 256, n / 256 % 256, n / 65536 % 256, n / 16777216 % 256]

/-- The byte encoding of a list of `(cellIndex, value)` pairs of a sparse
feature record: each pair is `uint32 cellIndex` then `float32 value`,
little-endian. -/
def encodePairs : List (Nat × Word) → Bytes
  | [] => []
  | (i, v) :: rest => bytesOfUint32 i ++ (bytesOfUint32 v ++ encodePairs rest)

/-- The byte encoding of a whole sparse feature record:
`uint32 nonZeroCount` followed by the pairs. -/
def encodeFeature (pairs : List (Nat × Word)) : Bytes :=
  bytesOfUint32 pairs.length ++ encodePairs pairs

/-- One scatter step of the decoder's fill loop: write `value` at
`cellIndex` when it is in bounds, else leave the array unchanged
(mirrors `if (cellIndex < featureArray.length) featureArray[cellIndex] = value`). -/
def scatterStep (arr : List Word) (p : Nat × Word) : List Word :=
  if p.1 < arr.length then arr.set p.1 p.2 else arr

/-- Association-list lookup with `Nat` keys (first match wins). -/
def lookupNat : List (Nat × Word) → Nat → Option Word
  | [], _ => none
  | (k, v) :: rest, key => if k = key then some v else lookupNat rest key

namespace BinaryDataLoader

/-- The fill loop of `_parseFeatureBinary`: `n` remaining pairs, reading
at `off`, scattering into `arr`. Reading past the end of the buffer
throws a `RangeError` (`none`). -/
def parseFeatureGo (buf : Bytes) : Nat → Nat → List Word → Option (List Word)
  | 0, _, arr => some arr
  | n + 1, off, arr =>
    match readUint32 buf off, readUint32 buf (off + 4) with
    | some cellIndex, some value =>
      parseFeatureGo buf n (off + 8)
        (if cellIndex < arr.length then arr.set cellIndex value else arr)
    | _, _ => none

/-- `_parseFeatureBinary(buffer)`: reads `uint32 nonZeroCount`, creates a
zero-filled array of length `cellCount` (`this.baseData.cellIds.length`
in the source, passed here explicitly), and scatters the pairs into it. -/
def parseFeatureBinary (cellCount : Nat) (buf : Bytes) : Option (List Word) :=
  match readUint32 buf 0 with
  | none => none
  | some nonZeroCount => parseFeatureGo buf nonZeroCount 4 (List.replicate cellCount 0)

end BinaryDataLoader

/-- The parsed `metadata.json` descriptor (`{ genes: { total, features },
tfs: { total, features } }`); JSON deserialization itself is done by the
browser and is external, so the environment delivers it parsed. -/
structure Metadata where
  genesTotal : Nat
  genesFeatures : List String
  tfsTotal : Nat
  tfsFeatures : List String
  deriving DecidableEq, Repr

/-- The byte source (§2): for each URL either the raw bytes of the
resource or a fetch failure (`fetch` not ok / network error, which
`_fetchBinary` turns into a thrown error). `json` delivers
`metadata.json` already deserialized. A deterministic function models
the fact that the backing files do not change during a run. -/
structure Env where
  bin : String → Option Bytes
  json : String → Option Metadata

/-- One decoded coordinate pair (`float32 x`, `float32 y`, kept as raw
32-bit words). -/
structure Coord where
  x : Word
  y : Word
  deriving DecidableEq, Repr

/-- One entry of the assembled base data array (`_loadBaseData`):
`{ id, x, y, slice, region }`. `slice`/`region` are `none` when the JS
source indexes past the end of `sections`/`celltypes` (which yields
`undefined` without throwing). -/
structure Cell where
  id : JsStr
  x : Word
  y : Word
  slice : Option JsStr
  region : Option JsStr
  deriving DecidableEq, Repr

/-- The value stored in `this.baseData` after a successful
`_loadBaseData`: the four decoded arrays plus the assembled cell array. -/
structure BaseBundle where
  cellIds : List JsStr
  coordinates : List Coord
  sections : List JsStr
  celltypes : List JsStr
  baseData : List Cell
  deriving DecidableEq, Repr

/-- `Map.get`-style lookup on an insertion-ordered association list
(models `this.loadedFeatures.has`/`get`). -/
def lookupF {α : Type} : List (String × α) → String → Option α
  | [], _ => none
  | (k, v) :: rest, key => if k = key then some v else lookupF rest key

/-- `Map.set`: overwrite the existing entry for the key if present,
otherwise append a new entry (JS `Map` keeps insertion order and `set`
on an existing key does not grow the map). -/
def mapSet {α : Type} : List (String × α) → String → α → List (String × α)
  | [], key, v => [(key, v)]
  | (k, w) :: rest, key, v =>
    if k = key then (key, v) :: rest else (k, w) :: mapSet rest key v

namespace BinaryDataLoader

/-- The fields of a `BinaryDataLoader` instance. `metadata` and
`baseData` start as `null` (`none`); `loadedFeatures` is the feature
cache `Map`. -/
structure LoaderState where
  basePath : String
  metadata : Option Metadata
  baseData : Option BaseBundle
  loadedFeatures : List (String × List Word)
  deriving DecidableEq, Repr

/-- The constructor `new BinaryDataLoader(basePath)`. -/
def mkLoader (basePath : String) : LoaderState :=
  { basePath := basePath, metadata := none, baseData := none, loadedFeatures := [] }

/-- The loop of `_loadStringArray`: `n` remaining strings, reading at
`off`. Each string is `uint32 byteLength` then that many bytes; a
`Uint8Array` view past the end of the buffer throws (`none`);
`TextDecoder.decode` is total (strings are kept as their byte lists). -/
def readStringsGo (buf : Bytes) : Nat → Nat → Option (List JsStr)
  | 0, _ => some []
  | n + 1, off =>
    match readUint32 buf off with
    | none => none
    | some len =>
      if off + 4 + len ≤ buf.length then
        match readStringsGo buf n (off + 4 + len) with
        | none => none
        | some rest => some (((buf.drop (off + 4)).take len) :: rest)
      else none

/-- `_loadStringArray` / `_loadCellIds` body (both parse the same
layout): `uint32 count`, then `count` length-prefixed strings. -/
def loadStringArray (buf : Bytes) : Option (List JsStr) :=
  match readUint32 buf 0 with
  | none => none
  | some count => readStringsGo buf count 4

/-- The loop of `_loadCoordinates`: `n` remaining pairs at `off`, each
`float32 x` then `float32 y` (bit patterns). -/
def readCoordsGo (buf : Bytes) : Nat → Nat → Option (List Coord)
  | 0, _ => some []
  | n + 1, off =>
    match readUint32 buf off, readUint32 buf (off + 4) with
    | some a, some b =>
      match readCoordsGo buf n (off + 8) with
      | none => none
      | some rest => some ({ x := a, y := b } :: rest)
    | _, _ => none

/-- `_loadCoordinates` body: `uint32 count`, then `count` coordinate
pairs. -/
def loadCoordinates (buf : Bytes) : Option (List Coord) :=
  match readUint32 buf 0 with
  | none => none
  | some count => readCoordsGo buf count 4

/-- The assembly loop of `_loadBaseData`: for `i` from the current index
over `n` remaining cells, push `{ id: cellIds[i], x: coordinates[i].x,
y: coordinates[i].y, slice: sections[i], region: celltypes[i] }`.
Accessing `.x` of an out-of-range (`undefined`) coordinate throws
(`none`); out-of-range `sections[i]` / `celltypes[i]` just store
`undefined`. -/
def buildCells (cellIds sections celltypes : List JsStr) (coordinates : List Coord) :
    Nat → Nat → Option (List Cell)
  | 0, _ => some []
  | n + 1, i =>
    match coordinates[i]? with
    | none => none
    | some c =>
      match buildCells cellIds sections celltypes coordinates n (i + 1) with
      | none => none
      | some rest =>
        some ({ id := cellIds.getD i [], x := c.x, y := c.y,
                slice := sections[i]?, region := celltypes[i]? } :: rest)

/-- `_loadBaseData`: fetch and decode the four base files, then zip them
by position into the cell array (the loop runs `cellIds.length` times). -/
def loadBaseData (env : Env) (bp : String) : Option BaseBundle :=
  match env.bin (bp ++ "/base/cell_ids.bin"), env.bin (bp ++ "/base/coordinates.bin"),
        env.bin (bp ++ "/base/sections.bin"), env.bin (bp ++ "/base/celltypes.bin") with
  | some b1, some b2, some b3, some b4 =>
    match loadStringArray b1, loadCoordinates b2, loadStringArray b3, loadStringArray b4 with
    | some ids, some coords, some secs, some cts =>
      match buildCells ids secs cts coords ids.length 0 with
      | none => none
      | some cells =>
        some { cellIds := ids, coordinates := coords, sections := secs,
               celltypes := cts, baseData := cells }
    | _, _, _, _ => none
  | _, _, _, _ => none

/-- `init()`: loads `metadata.json` and the base data; on any underlying
failure the error is re-thrown (`none`). On success both fields are
set and `true` is returned to the caller. -/
def init (env : Env) (s : LoaderState) : Option LoaderState :=
  match env.json (s.basePath ++ "/metadata.json") with
  | none => none
  | some md =>
    match loadBaseData env s.basePath with
    | none => none
    | some bb => some { s with metadata := some md, baseData := some bb }

/-- The path `${this.basePath}/${category}/${featureName}.bin`. -/
def featurePath (bp cat name : String) : String :=
  bp ++ "/" ++ cat ++ "/" ++ name ++ ".bin"

/-- `loadFeature(featureName, category)` run to completion in isolation.
Result: the state after the call, the returned vector, and the number of
underlying fetches performed (0 on a cache hit, 1 otherwise).
`none` models the call rejecting: with `this.baseData` still `null`, a
cache miss throws inside the `catch` block (`this.baseData.cellIds`)
and the error escapes. On fetch or decode failure the `catch` block
returns a fresh zero-filled array of length `cellIds.length` without
touching the cache. -/
def loadFeature (env : Env) (s : LoaderState) (name cat : String) :
    Option (LoaderState × List Word × Nat) :=
  match lookupF s.loadedFeatures name with
  | some v => some (s, v, 0)
  | none =>
    match s.baseData with
    | none => none
    | some bb =>
      match env.bin (featurePath s.basePath cat name) with
      | none => some (s, List.replicate bb.cellIds.length 0, 1)
      | some buf =>
        match parseFeatureBinary bb.cellIds.length buf with
        | none => some (s, List.replicate bb.cellIds.length 0, 1)
        | some v =>
          some ({ s with loadedFeatures := mapSet s.loadedFeatures name v }, v, 1)

/-- `getBaseData()`: `return this.baseData.baseData` — dereferencing a
`null` `this.baseData` throws a `TypeError` (`none`). -/
def getBaseData (s : LoaderState) : Option (List Cell) :=
  match s.baseData with
  | none => none
  | some bb => some bb.baseData

end BinaryDataLoader

namespace RealDataConstants

/-- The module-level state of `src/realDataConstants.js` that the claims
touch: the singleton `binaryDataLoader`, the `isInitialized` flag, and
the `BASE_DATA` module array. -/
structure GlobalState where
  loader : BinaryDataLoader.LoaderState
  isInitialized : Bool
  BASE_DATA : List Cell
  deriving DecidableEq, Repr

/-- The module state at load time: a fresh loader with the default base
path `./data/binary`, `isInitialized = false`, `BASE_DATA = []`. -/
def initialGlobal : GlobalState :=
  { loader := BinaryDataLoader.mkLoader "./data/binary",
    isInitialized := false, BASE_DATA := [] }

/-- `initializeData()` run to completion in isolation. Result: the new
module state, the returned value, and the number of underlying fetches
performed (`metadata.json` plus the four base files = 5 on the
initializing path, 0 on the guarded path). If already initialized it
returns `true` immediately; otherwise it runs `binaryDataLoader.init()`,
copies `getBaseData()` into `BASE_DATA`, and sets `isInitialized` only
after full success; a failure is re-thrown (`none`) with
`isInitialized` still false. -/
def initializeData (env : Env) (g : GlobalState) : Option (GlobalState × Bool × Nat) :=
  if g.isInitialized then some (g, true, 0)
  else
    match BinaryDataLoader.init env g.loader with
    | none => none
    | some l =>
      match BinaryDataLoader.getBaseData l with
      | none => none
      | some cells =>
        some ({ loader := l, isInitialized := true, BASE_DATA := cells }, true, 5)

end RealDataConstants

namespace ConcModel

/-- One of `N` concurrent `loadFeature(name, cat)` invocations.
`phase 0`: the call has not started; `phase 1`: it ran its synchronous
prefix (cache check, then `await this._fetchBinary(...)`) and is
suspended at the `await`; `phase 2`: it resolved with `result`. -/
structure CTask where
  phase : Nat
  result : List Word
  deriving DecidableEq, Repr

/-- The shared single-threaded state: the loader (whose cache all tasks
share) plus the number of underlying fetches issued so far. -/
structure ConcState where
  loader : BinaryDataLoader.LoaderState
  tasks : List CTask
  fetchCount : Nat
  deriving DecidableEq, Repr

/-- Advance task `i` by one scheduler step. JS runs each region between
`await`s atomically, so `loadFeature` splits into exactly two steps:

* phase 0 (the synchronous prefix): check `loadedFeatures`; on a hit
  resolve immediately with the cached vector; on a miss issue the fetch
  (`fetchCount + 1`) and suspend. The prefix never writes the cache.
* phase 1 (the continuation after the `await`): take the fetch outcome,
  decode, insert into the cache on success, and resolve — without
  re-checking the cache, exactly as the source continuation does. -/
def cstep (env : Env) (name cat : String) (g : ConcState) (i : Nat) : ConcState :=
  match g.tasks[i]? with
  | none => g
  | some t =>
    match t.phase with
    | 0 =>
      match lookupF g.loader.loadedFeatures name with
      | some v => { g with tasks := g.tasks.set i { phase := 2, result := v } }
      | none =>
        { g with tasks := g.tasks.set i { t with phase := 1 },
                 fetchCount := g.fetchCount + 1 }
    | 1 =>
      match g.loader.baseData with
      | none => g
      | some bb =>
        match env.bin (BinaryDataLoader.featurePath g.loader.basePath cat name) with
        | none =>
          { g with tasks :=
              g.tasks.set i { phase := 2, result := List.replicate bb.cellIds.length 0 } }
        | some buf =>
          match BinaryDataLoader.parseFeatureBinary bb.cellIds.length buf with
          | none =>
            { g with tasks :=
                g.tasks.set i { phase := 2, result := List.replicate bb.cellIds.length 0 } }
          | some v =>
            { g with
                loader := { g.loader with
                  loadedFeatures := mapSet g.loader.loadedFeatures name v },
                tasks := g.tasks.set i { phase := 2, result := v } }
    | _ => g

/-- Run a schedule (a list of task indices, each entry advancing that
task by one step). -/
def crun (env : Env) (name cat : String) (g : ConcState) (sched : List Nat) : ConcState :=
  sched.foldl (cstep env name cat) g

/-- The initial state for `n` concurrent calls over loader state `s`. -/
def concStart (s : BinaryDataLoader.LoaderState) (n : Nat) : ConcState :=
  { loader := s, tasks := List.replicate n { phase := 0, result := [] }, fetchCount := 0 }

end ConcModel

namespace RefModel

/-- A heap of JS `Float32Array` objects, addressed by allocation order.
The value-level model above identifies an array with its contents; this
model keeps object identity, which is what the aliasing claim is about. -/
structure RefState where
  heap : List (List Word)
  cache : List (String × Nat)
  deriving DecidableEq, Repr

/-- Read the array stored at address `a`. -/
def deref (s : RefState) (a : Nat) : List Word :=
  s.heap.getD a []

/-- A caller executing `arr[i] = w` on the array object at address `a`. -/
def writeCell (s : RefState) (a i : Nat) (w : Word) : RefState :=
  { s with heap := s.heap.set a ((s.heap.getD a []).set i w) }

/-- `loadFeature` at the object level: `cellCount` stands for
`this.baseData.cellIds.length` (the loader is assumed initialized).
A cache hit returns the address stored in the cache — the very object
`this.loadedFeatures.get(featureName)` — with no copy. A successful
miss allocates the decoded array, stores its address in the cache, and
returns that same address. A failed miss allocates a fresh zero array
that is returned but not cached. -/
def loadFeatureRef (env : Env) (cellCount : Nat) (s : RefState) (name cat bp : String) :
    Option (RefState × Nat × Nat) :=
  match lookupF s.cache name with
  | some a => some (s, a, 0)
  | none =>
    match env.bin (BinaryDataLoader.featurePath bp cat name) with
    | none =>
      some ({ s with heap := s.heap ++ [List.replicate cellCount 0] }, s.heap.length, 1)
    | some buf =>
      match BinaryDataLoader.parseFeatureBinary cellCount buf with
      | none =>
        some ({ s with heap := s.heap ++ [List.replicate cellCount 0] }, s.heap.length, 1)
      | some v =>
        some ({ heap := s.heap ++ [v], cache := mapSet s.cache name s.heap.length },
              s.heap.length, 1)

end RefModel

/-- A one-cell base bundle used for concrete runs: the decoded form of a
dataset with a single cell `"a"` at the origin, slice `"s"`, region
`"t"`. -/
def exBundle : BaseBundle :=
  { cellIds := [[97]], coordinates := [{ x := 0, y := 0 }],
    sections := [[115]], celltypes := [[116]],
    baseData := [{ id := [97], x := 0, y := 0, slice := some [115], region := some [116] }] }

/-- An initialized loader state over `exBundle` with an empty feature
cache. -/
def exState : BinaryDataLoader.LoaderState :=
  { basePath := "./data/binary", metadata := none, baseData := some exBundle,
    loadedFeatures := [] }

/-- An environment whose only resource is the feature file
`./data/binary/genes/X.bin`, holding the record `[(0, 3)]`. -/
def exEnvX : Env :=
  { bin := fun u =>
      if u = "./data/binary/genes/X.bin" then some (encodeFeature [(0, 3)]) else none,
    json := fun _ => none }

/-- An environment with no resources at all (every fetch fails). -/
def exEnvEmpty : Env :=
  { bin := fun _ => none, json := fun _ => none }

/-- Concrete base files for a successful `init`: one cell `"a"`, one
coordinate pair, one section `"s"`, one celltype `"t"`, plus a parsed
metadata descriptor. -/
def exEnvInit : Env :=
  { bin := fun u =>
      if u = "./data/binary/base/cell_ids.bin" then some [1, 0, 0, 0, 1, 0, 0, 0, 97]
      else if u = "./data/binary/base/coordinates.bin" then
        some [1, 0, 0, 0, 0, 0, 0, 0, 0, 0, 0, 0]
      else if u = "./data/binary/base/sections.bin" then some [1, 0, 0, 0, 1, 0, 0, 0, 115]
      else if u = "./data/binary/base/celltypes.bin" then some [1, 0, 0, 0, 1, 0, 0, 0, 116]
      else none,
    json := fun u =>
      if u = "./data/binary/metadata.json" then
        some { genesTotal := 1, genesFeatures := ["X"], tfsTotal := 0, tfsFeatures := [] }
      else none }

/-- An environment whose feature file `X.bin` is truncated (5 bytes but a
non-zero count of 3), so that decoding it throws a `RangeError`. -/
def exEnvTrunc : Env :=
  { bin := fun u =>
      if u = "./data/binary/genes/X.bin" then some [3, 0, 0, 0, 5] else none,
    json := fun _ => none }

/-- The loader state `init` produces from `exEnvInit` over a fresh
loader. -/
def exInitState : BinaryDataLoader.LoaderState :=
  { basePath := "./data/binary",
    metadata := some { genesTotal := 1, genesFeatures := ["X"],
                       tfsTotal := 0, tfsFeatures := [] },
    baseData := some exBundle, loadedFeatures := [] }

/-- The module state after a successful `initializeData` run over
`exEnvInit`. -/
def exGlobal1 : RealDataConstants.GlobalState :=
  { loader := exInitState, isInitialized := true, BASE_DATA := exBundle.baseData }

/-! ## Helper lemmas: the little-endian reader and the scatter loop -/

theorem bytesOfUint32_length (n : Nat) : (bytesOfUint32 n).length = 4 := rfl

theorem readUint32_shift (pre buf : Bytes) (off : Nat) :
    readUint32 (pre ++ buf) (pre.length + off) = readUint32 buf off := by
  unfold readUint32
  rw [← List.drop_drop, List.drop_left]

theorem readUint32_bytes (n : Nat) (h : n < 4294967296) (rest : Bytes) :
    readUint32 (bytesOfUint32 n ++ rest) 0 = some n := by
  have e : readUint32 (bytesOfUint32 n ++ rest) 0 =
      some (n % 256 + 256 * (n / 256 % 256) + 65536 * (n / 65536 % 256) +
        16777216 * (n / 16777216 % 256)) := rfl
  rw [e]
  congr 1
  omega

theorem scatterStep_length (arr : List Word) (p : Nat × Word) :
    (scatterStep arr p).length = arr.length := by
  unfold scatterStep
  split <;> simp

theorem foldl_scatter_length (pairs : List (Nat × Word)) :
    ∀ arr : List Word, (pairs.foldl scatterStep arr).length = arr.length := by
  induction pairs with
  | nil => intro arr; rfl
  | cons p rest ih =>
    intro arr
    rw [List.foldl_cons, ih, scatterStep_length]

theorem lookupNat_eq_none (pairs : List (Nat × Word)) (j : Nat)
    (h : j ∉ pairs.map Prod.fst) : lookupNat pairs j = none := by
  induction pairs with
  | nil => rfl
  | cons p rest ih =>
    obtain ⟨k, v⟩ := p
    simp only [List.map_cons, List.mem_cons, not_or] at h
    have hk : ¬(k = j) := fun e => h.1 e.symm
    simp only [lookupNat, if_neg hk, ih h.2]

theorem getD_of_lt (l : List Word) (j : Nat) (h : j < l.length) :
    l.getD j 0 = l[j] := by
  rw [List.getD_eq_getElem?_getD, List.getElem?_eq_getElem h]
  rfl

theorem foldl_scatter_getD (pairs : List (Nat × Word)) :
    ∀ (arr : List Word) (j : Nat),
      (pairs.map Prod.fst).Nodup → (∀ p ∈ pairs, p.1 < arr.length) → j < arr.length →
      (pairs.foldl scatterStep arr).getD j 0
        = (lookupNat pairs j).getD (arr.getD j 0) := by
  induction pairs with
  | nil => intro arr j _ _ _; rfl
  | cons p rest ih =>
    intro arr j hnd hr hj
    obtain ⟨i, v⟩ := p
    have hi : i < arr.length := hr (i, v) (by simp)
    have hnd' : (rest.map Prod.fst).Nodup := by
      simp only [List.map_cons, List.nodup_cons] at hnd
      exact hnd.2
    have hmem : i ∉ rest.map Prod.fst := by
      simp only [List.map_cons, List.nodup_cons] at hnd
      exact hnd.1
    rw [List.foldl_cons]
    have hs : scatterStep arr (i, v) = arr.set i v := by simp [scatterStep, hi]
    rw [hs, ih (arr.set i v) j hnd'
      (fun p hp => by rw [List.length_set]; exact hr p (List.mem_cons_of_mem _ hp))
      (by rwa [List.length_set])]
    by_cases hij : i = j
    · subst hij
      rw [lookupNat_eq_none rest i hmem]
      simp only [lookupNat, if_pos rfl, Option.getD_none, Option.getD_some]
      rw [getD_of_lt _ i (by rwa [List.length_set])]
      simp
    · have e1 : (arr.set i v).getD j 0 = arr.getD j 0 := by
        rw [getD_of_lt _ j (by rwa [List.length_set]), getD_of_lt _ j hj]
        exact List.getElem_set_ne hij _
      rw [e1]
      simp only [lookupNat, if_neg hij]

theorem foldl_scatter_eq_map (cc : Nat) (pairs : List (Nat × Word))
    (hnd : (pairs.map Prod.fst).Nodup) (hr : ∀ p ∈ pairs, p.1 < cc) :
    pairs.foldl scatterStep (List.replicate cc 0)
      = (List.range cc).map (fun i => (lookupNat pairs i).getD 0) := by
  apply List.ext_getElem
  · rw [foldl_scatter_length]
    simp
  · intro j h1 h2
    have hlen : (List.replicate cc (0 : Word)).length = cc := by simp
    have hj : j < cc := by
      have := h1
      rwa [foldl_scatter_length, hlen] at this
    have hg := foldl_scatter_getD pairs (List.replicate cc 0) j hnd
      (fun p hp => by rw [hlen]; exact hr p hp) (by rwa [hlen])
    rw [getD_of_lt _ j h1] at hg
    rw [hg]
    simp [hj, List.getD_eq_getElem?_getD, List.getElem?_replicate]

theorem parseFeatureGo_length (buf : Bytes) :
    ∀ (n off : Nat) (arr out : List Word),
      BinaryDataLoader.parseFeatureGo buf n off arr = some out → out.length = arr.length := by
  intro n
  induction n with
  | zero =>
    intro off arr out h
    simp only [BinaryDataLoader.parseFeatureGo, Option.some.injEq] at h
    rw [← h]
  | succ m ih =>
    intro off arr out h
    simp only [BinaryDataLoader.parseFeatureGo] at h
    cases h1 : readUint32 buf off with
    | none => rw [h1] at h; exact absurd h (by simp)
    | some cellIndex =>
      cases h2 : readUint32 buf (off + 4) with
      | none => rw [h1, h2] at h; exact absurd h (by simp)
      | some value =>
        rw [h1, h2] at h
        have := ih (off + 8) (if cellIndex < arr.length then arr.set cellIndex value else arr) out h
        rw [this]
        split <;> simp

theorem parseFeatureBinary_length (cc : Nat) (buf : Bytes) (out : List Word)
    (h : BinaryDataLoader.parseFeatureBinary cc buf = some out) : out.length = cc := by
  simp only [BinaryDataLoader.parseFeatureBinary] at h
  cases h0 : readUint32 buf 0 with
  | none => rw [h0] at h; exact absurd h (by simp)
  | some n =>
    rw [h0] at h
    have := parseFeatureGo_length buf n 4 (List.replicate cc 0) out h
    simpa using this

theorem parseFeatureGo_encodePairs (pairs : List (Nat × Word)) :
    ∀ (pre : Bytes) (arr : List Word),
      (∀ p ∈ pairs, p.1 < 4294967296 ∧ p.2 < 4294967296) →
      BinaryDataLoader.parseFeatureGo (pre ++ encodePairs pairs) pairs.length pre.length arr
        = some (pairs.foldl scatterStep arr) := by
  induction pairs with
  | nil => intro pre arr _; rfl
  | cons p rest ih =>
    intro pre arr hw
    obtain ⟨i, v⟩ := p
    have hi : i < 4294967296 := (hw (i, v) (by simp)).1
    have hv : v < 4294967296 := (hw (i, v) (by simp)).2
    have h1 : readUint32 (pre ++ encodePairs ((i, v) :: rest)) pre.length = some i := by
      have hsh := readUint32_shift pre (encodePairs ((i, v) :: rest)) 0
      rw [Nat.add_zero] at hsh
      rw [hsh]
      show readUint32 (bytesOfUint32 i ++ (bytesOfUint32 v ++ encodePairs rest)) 0 = some i
      exact readUint32_bytes i hi _
    have h2 : readUint32 (pre ++ encodePairs ((i, v) :: rest)) (pre.length + 4) = some v := by
      have e1 : pre ++ encodePairs ((i, v) :: rest)
          = (pre ++ bytesOfUint32 i) ++ (bytesOfUint32 v ++ encodePairs rest) := by
        show pre ++ (bytesOfUint32 i ++ (bytesOfUint32 v ++ encodePairs rest)) = _
        rw [List.append_assoc]
      have e2 : pre.length + 4 = (pre ++ bytesOfUint32 i).length + 0 := by
        simp [bytesOfUint32]
      rw [e1, e2, readUint32_shift]
      exact readUint32_bytes v hv _
    show BinaryDataLoader.parseFeatureGo (pre ++ encodePairs ((i, v) :: rest))
        (rest.length + 1) pre.length arr = some (((i, v) :: rest).foldl scatterStep arr)
    rw [BinaryDataLoader.parseFeatureGo, h1, h2]
    show BinaryDataLoader.parseFeatureGo (pre ++ encodePairs ((i, v) :: rest))
        rest.length (pre.length + 8) (if i < arr.length then arr.set i v else arr)
      = some (((i, v) :: rest).foldl scatterStep arr)
    have e3 : pre ++ encodePairs ((i, v) :: rest)
        = (pre ++ bytesOfUint32 i ++ bytesOfUint32 v) ++ encodePairs rest := by
      show pre ++ (bytesOfUint32 i ++ (bytesOfUint32 v ++ encodePairs rest)) = _
      simp [List.append_assoc]
    have e4 : pre.length + 8 = (pre ++ bytesOfUint32 i ++ bytesOfUint32 v).length := by
      simp [bytesOfUint32]
    have e5 : (if i < arr.length then arr.set i v else arr) = scatterStep arr (i, v) := rfl
    rw [e3, e4, e5, List.foldl_cons]
    exact ih (pre ++ bytesOfUint32 i ++ bytesOfUint32 v) (scatterStep arr (i, v))
      (fun q hq => hw q (List.mem_cons_of_mem _ hq))

theorem parseFeatureBinary_encode (cc : Nat) (pairs : List (Nat × Word))
    (hw : ∀ p ∈ pairs, p.1 < 4294967296 ∧ p.2 < 4294967296)
    (hlen : pairs.length < 4294967296) :
    BinaryDataLoader.parseFeatureBinary cc (encodeFeature pairs)
      = some (pairs.foldl scatterStep (List.replicate cc 0)) := by
  show (match readUint32 (encodeFeature pairs) 0 with
    | none => none
    | some n => BinaryDataLoader.parseFeatureGo (encodeFeature pairs) n 4
        (List.replicate cc 0)) = some (pairs.foldl scatterStep (List.replicate cc 0))
  rw [show readUint32 (encodeFeature pairs) 0 = some pairs.length from
    readUint32_bytes pairs.length hlen _]
  exact parseFeatureGo_encodePairs pairs (bytesOfUint32 pairs.length) (List.replicate cc 0) hw

theorem foldl_scatter_filter (cc : Nat) (pairs : List (Nat × Word)) :
    ∀ arr : List Word, arr.length = cc →
      pairs.foldl scatterStep arr
        = (pairs.filter (fun p => p.1 < cc)).foldl scatterStep arr := by
  induction pairs with
  | nil => intro arr _; rfl
  | cons p rest ih =>
    intro arr hlen
    obtain ⟨i, v⟩ := p
    by_cases hic : i < cc
    · have : List.filter (fun p => p.1 < cc) ((i, v) :: rest)
          = (i, v) :: List.filter (fun p => p.1 < cc) rest := by
        simp [List.filter_cons, hic]
      rw [this, List.foldl_cons, List.foldl_cons]
      exact ih (scatterStep arr (i, v)) (by rw [scatterStep_length, hlen])
    · have hskip : scatterStep arr (i, v) = arr := by
        simp [scatterStep, hlen, hic]
      have : List.filter (fun p => p.1 < cc) ((i, v) :: rest)
          = List.filter (fun p => p.1 < cc) rest := by
        simp [List.filter_cons, hic]
      rw [this, List.foldl_cons, hskip]
      exact ih arr hlen

/-! ## Helper lemmas: the cache map and base-data assembly -/

theorem lookupF_mapSet_self {α : Type} (m : List (String × α)) (k : String) (v : α) :
    lookupF (mapSet m k v) k = some v := by
  induction m with
  | nil => simp [mapSet, lookupF]
  | cons p rest ih =>
    obtain ⟨k1, w⟩ := p
    by_cases h : k1 = k
    · simp [mapSet, h, lookupF]
    · simp [mapSet, h, lookupF, ih]

theorem mapSet_idem {α : Type} (m : List (String × α)) (k : String) (v : α) :
    mapSet (mapSet m k v) k v = mapSet m k v := by
  induction m with
  | nil => simp [mapSet]
  | cons p rest ih =>
    obtain ⟨k1, w⟩ := p
    by_cases h : k1 = k
    · simp [mapSet, h]
    · simp [mapSet, h, ih]

theorem buildCells_length (cellIds sections celltypes : List JsStr) (coordinates : List Coord) :
    ∀ (n i : Nat) (cells : List Cell),
      BinaryDataLoader.buildCells cellIds sections celltypes coordinates n i = some cells →
      cells.length = n := by
  intro n
  induction n with
  | zero =>
    intro i cells h
    simp only [BinaryDataLoader.buildCells, Option.some.injEq] at h
    rw [← h]
    rfl
  | succ m ih =>
    intro i cells h
    simp only [BinaryDataLoader.buildCells] at h
    cases hc : coordinates[i]? with
    | none => rw [hc] at h; exact absurd h (by simp)
    | some c =>
      rw [hc] at h
      cases hr : BinaryDataLoader.buildCells cellIds sections celltypes coordinates m (i + 1) with
      | none => rw [hr] at h; exact absurd h (by simp)
      | some rest =>
        rw [hr] at h
        simp only [Option.some.injEq] at h
        rw [← h, List.length_cons, ih (i + 1) rest hr]

theorem loadBaseData_length (env : Env) (bp : String) (bb : BaseBundle)
    (h : BinaryDataLoader.loadBaseData env bp = some bb) :
    bb.baseData.length = bb.cellIds.length := by
  simp only [BinaryDataLoader.loadBaseData] at h
  split at h
  case h_2 => exact absurd h (by simp)
  case h_1 b1 b2 b3 b4 e1 e2 e3 e4 =>
    split at h
    case h_2 => exact absurd h (by simp)
    case h_1 ids coords secs cts f1 f2 f3 f4 =>
      cases hb : BinaryDataLoader.buildCells ids secs cts coords ids.length 0 with
      | none => rw [hb] at h; exact absurd h (by simp)
      | some cells =>
        rw [hb] at h
        simp only [Option.some.injEq] at h
        rw [← h]
        exact buildCells_length ids secs cts coords ids.length 0 cells hb

theorem init_baseData (env : Env) (s s1 : BinaryDataLoader.LoaderState)
    (h : BinaryDataLoader.init env s = some s1) :
    ∃ bb, s1.baseData = some bb ∧ bb.baseData.length = bb.cellIds.length
      ∧ s1.basePath = s.basePath ∧ s1.loadedFeatures = s.loadedFeatures := by
  simp only [BinaryDataLoader.init] at h
  cases hj : env.json (s.basePath ++ "/metadata.json") with
  | none => rw [hj] at h; exact absurd h (by simp)
  | some md =>
    rw [hj] at h
    cases hb : BinaryDataLoader.loadBaseData env s.basePath with
    | none => rw [hb] at h; exact absurd h (by simp)
    | some bb =>
      rw [hb] at h
      simp only [Option.some.injEq] at h
      refine ⟨bb, ?_, loadBaseData_length env s.basePath bb hb, ?_, ?_⟩ <;> rw [← h]

/-! ## Claim theorems -/

/-- Claim C9: for every cellCount, every set of distinct indices within
`[0, cellCount)` and every choice of float32 values (as 32-bit words,
including the empty set), encoding the sparse vector as a little-endian
`(uint32 nonZeroCount, (uint32 cellIndex, float32 value) pairs)` record
and decoding it with `_parseFeatureBinary` reproduces the original dense
length-`cellCount` array exactly. -/
theorem claimC9_roundtrip (cellCount : Nat) (pairs : List (Nat × Word))
    (hnd : (pairs.map Prod.fst).Nodup)
    (hrange : ∀ p ∈ pairs, p.1 < cellCount)
    (hwords : ∀ p ∈ pairs, p.1 < 4294967296 ∧ p.2 < 4294967296)
    (hcount : pairs.length < 4294967296) :
    BinaryDataLoader.parseFeatureBinary cellCount (encodeFeature pairs)
      = some ((List.range cellCount).map (fun i => (lookupNat pairs i).getD 0)) := by
  rw [parseFeatureBinary_encode cellCount pairs hwords hcount,
    foldl_scatter_eq_map cellCount pairs hnd hrange]

/-- Witness for C9 at a concrete record: two non-zero entries in a
three-cell dataset. -/
theorem claimC9_roundtrip_witness :
    BinaryDataLoader.parseFeatureBinary 3 (encodeFeature [(0, 5), (2, 7)])
      = some ((List.range 3).map (fun i => (lookupNat [(0, 5), (2, 7)] i).getD 0)) :=
  claimC9_roundtrip 3 [(0, 5), (2, 7)] (by decide) (by decide) (by decide) (by decide)

/-- Counterexample to claim C2 as stated: decoding the record
`[(5, 7)]` against `cellCount = 2` does NOT fail with a malformed-input
error — `_parseFeatureBinary` succeeds and silently drops the
out-of-range pair, returning the all-zero array. -/
theorem claimC2_counterexample :
    BinaryDataLoader.parseFeatureBinary 2 (encodeFeature [(5, 7)]) = some [0, 0] ∧
    (BinaryDataLoader.parseFeatureBinary 2 (encodeFeature [(5, 7)])).isSome = true := by
  decide

/-- Claim C2 as amended: a record containing a pair with
`cellIndex ≥ cellCount` is not rejected — decoding silently skips every
out-of-range pair (the result equals that of the record with those pairs
removed) — and decoding never writes outside the length-`cellCount`
output array (every successful decode has length exactly `cellCount`). -/
theorem claimC2_oob_skipped (cellCount : Nat) (buf : Bytes) (pairs : List (Nat × Word))
    (hwords : ∀ p ∈ pairs, p.1 < 4294967296 ∧ p.2 < 4294967296)
    (hcount : pairs.length < 4294967296) :
    (∀ out, BinaryDataLoader.parseFeatureBinary cellCount buf = some out →
      out.length = cellCount) ∧
    BinaryDataLoader.parseFeatureBinary cellCount (encodeFeature pairs)
      = BinaryDataLoader.parseFeatureBinary cellCount
          (encodeFeature (pairs.filter (fun p => p.1 < cellCount))) := by
  constructor
  · intro out h
    exact parseFeatureBinary_length cellCount buf out h
  · have hw2 : ∀ p ∈ pairs.filter (fun p => p.1 < cellCount),
        p.1 < 4294967296 ∧ p.2 < 4294967296 :=
      fun p hp => hwords p (List.mem_of_mem_filter hp)
    have hc2 : (pairs.filter (fun p => p.1 < cellCount)).length < 4294967296 :=
      Nat.lt_of_le_of_lt (List.length_filter_le _ _) hcount
    rw [parseFeatureBinary_encode cellCount pairs hwords hcount,
      parseFeatureBinary_encode cellCount _ hw2 hc2,
      foldl_scatter_filter cellCount pairs (List.replicate cellCount 0) (by simp)]

/-- Witness for the amended C2 at the counterexample's input: the
record `[(5, 7)]` with `cellCount = 2`. -/
theorem claimC2_oob_skipped_witness :
    (∀ out, BinaryDataLoader.parseFeatureBinary 2 (encodeFeature [(5, 7)]) = some out →
      out.length = 2) ∧
    BinaryDataLoader.parseFeatureBinary 2 (encodeFeature [(5, 7)])
      = BinaryDataLoader.parseFeatureBinary 2
          (encodeFeature ([(5, 7)].filter (fun p => p.1 < 2))) :=
  claimC2_oob_skipped 2 (encodeFeature [(5, 7)]) [(5, 7)] (by decide) (by decide)

/-- Claim C5: when the backing file fetch for an uncached feature fails,
`loadFeature` does not raise — it resolves with a dense zero-filled
vector whose length is the total cell count of the loaded base dataset. -/
theorem claimC5_zero_fallback (env : Env) (s : BinaryDataLoader.LoaderState)
    (name cat : String) (bb : BaseBundle)
    (hmiss : lookupF s.loadedFeatures name = none)
    (hbd : s.baseData = some bb)
    (hfetch : env.bin (BinaryDataLoader.featurePath s.basePath cat name) = none) :
    BinaryDataLoader.loadFeature env s name cat
      = some (s, List.replicate bb.cellIds.length 0, 1) := by
  simp only [BinaryDataLoader.loadFeature, hmiss, hbd, hfetch]

/-- Witness for C5: feature `X` over the one-cell dataset when every
fetch fails. -/
theorem claimC5_zero_fallback_witness :
    BinaryDataLoader.loadFeature exEnvEmpty exState "X" "genes"
      = some (exState, List.replicate exBundle.cellIds.length 0, 1) :=
  claimC5_zero_fallback exEnvEmpty exState "X" "genes" exBundle rfl rfl rfl

/-- Claim C6: a failed feature load (fetch failure, or decode failure on
every buffer the fetch could deliver) leaves the cache unchanged — the
state after the call is exactly the state before, so no entry was
inserted — and a subsequent `loadFeature` for the same feature performs
the fetch again (fetch count 1, not 0) and can succeed. -/
theorem claimC6_failure_not_cached (env : Env) (s : BinaryDataLoader.LoaderState)
    (name cat : String) (bb : BaseBundle)
    (hmiss : lookupF s.loadedFeatures name = none)
    (hbd : s.baseData = some bb)
    (hfail : ∀ buf, env.bin (BinaryDataLoader.featurePath s.basePath cat name) = some buf →
      BinaryDataLoader.parseFeatureBinary bb.cellIds.length buf = none) :
    BinaryDataLoader.loadFeature env s name cat
      = some (s, List.replicate bb.cellIds.length 0, 1) ∧
    ∀ (env2 : Env) (buf : Bytes) (v : List Word),
      env2.bin (BinaryDataLoader.featurePath s.basePath cat name) = some buf →
      BinaryDataLoader.parseFeatureBinary bb.cellIds.length buf = some v →
      BinaryDataLoader.loadFeature env2 s name cat
        = some ({ s with loadedFeatures := mapSet s.loadedFeatures name v }, v, 1) := by
  constructor
  · cases hfetch : env.bin (BinaryDataLoader.featurePath s.basePath cat name) with
    | none => simp only [BinaryDataLoader.loadFeature, hmiss, hbd, hfetch]
    | some buf =>
      simp only [BinaryDataLoader.loadFeature, hmiss, hbd, hfetch, hfail buf hfetch]
  · intro env2 buf v h1 h2
    simp only [BinaryDataLoader.loadFeature, hmiss, hbd, h1, h2]

/-- Witness for C6: the truncated `X.bin` fails to decode, the state is
unchanged, and a retry against a repaired environment fetches again and
succeeds. -/
theorem claimC6_failure_not_cached_witness :
    BinaryDataLoader.loadFeature exEnvTrunc exState "X" "genes"
      = some (exState, List.replicate exBundle.cellIds.length 0, 1) ∧
    ∀ (env2 : Env) (buf : Bytes) (v : List Word),
      env2.bin (BinaryDataLoader.featurePath exState.basePath "genes" "X") = some buf →
      BinaryDataLoader.parseFeatureBinary exBundle.cellIds.length buf = some v →
      BinaryDataLoader.loadFeature env2 exState "X" "genes"
        = some ({ exState with loadedFeatures := mapSet exState.loadedFeatures "X" v },
                v, 1) :=
  claimC6_failure_not_cached exEnvTrunc exState "X" "genes" exBundle rfl rfl
    (by
      intro buf h
      have e : exEnvTrunc.bin (BinaryDataLoader.featurePath exState.basePath "genes" "X")
          = some [3, 0, 0, 0, 5] := by decide
      rw [e] at h
      cases h
      decide)

/-- Claim C7: `getBaseData()` called on a loader whose `init` has not
succeeded throws (dereferencing the `null` `this.baseData`, the
situation the spec calls `NotInitialized`); after a successful `init` it
returns the assembled cell sequence. -/
theorem claimC7_getBaseData (env : Env) (bp : String)
    (s s1 : BinaryDataLoader.LoaderState)
    (h : BinaryDataLoader.init env s = some s1) :
    BinaryDataLoader.getBaseData (BinaryDataLoader.mkLoader bp) = none ∧
    ∃ bb, s1.baseData = some bb ∧
      BinaryDataLoader.getBaseData s1 = some bb.baseData := by
  refine ⟨rfl, ?_⟩
  obtain ⟨bb, hbb, -, -, -⟩ := init_baseData env s s1 h
  exact ⟨bb, hbb, by simp only [BinaryDataLoader.getBaseData, hbb]⟩

/-- Witness for C7 over the concrete one-cell environment. -/
theorem claimC7_getBaseData_witness :
    BinaryDataLoader.getBaseData (BinaryDataLoader.mkLoader "./data/binary") = none ∧
    ∃ bb, exInitState.baseData = some bb ∧
      BinaryDataLoader.getBaseData exInitState = some bb.baseData :=
  claimC7_getBaseData exEnvInit "./data/binary"
    (BinaryDataLoader.mkLoader "./data/binary") exInitState (by decide)

/-- Claim C10: the feature cache is keyed by the feature name alone.
After `loadFeature(name, c1)` succeeds and caches the vector, a later
`loadFeature(name, c2)` — under ANY environment (so no fetch from `c2`'s
path can be involved) and any category `c2` — returns the same cached
vector with zero fetches and an unchanged state. -/
theorem claimC10_cache_by_name (env1 : Env) (s : BinaryDataLoader.LoaderState)
    (name c1 : String) (bb : BaseBundle) (buf : Bytes) (v : List Word)
    (hmiss : lookupF s.loadedFeatures name = none)
    (hbd : s.baseData = some bb)
    (hbuf : env1.bin (BinaryDataLoader.featurePath s.basePath c1 name) = some buf)
    (hparse : BinaryDataLoader.parseFeatureBinary bb.cellIds.length buf = some v) :
    BinaryDataLoader.loadFeature env1 s name c1
      = some ({ s with loadedFeatures := mapSet s.loadedFeatures name v }, v, 1) ∧
    ∀ (env2 : Env) (c2 : String),
      BinaryDataLoader.loadFeature env2
        { s with loadedFeatures := mapSet s.loadedFeatures name v } name c2
        = some ({ s with loadedFeatures := mapSet s.loadedFeatures name v }, v, 0) := by
  constructor
  · simp only [BinaryDataLoader.loadFeature, hmiss, hbd, hbuf, hparse]
  · intro env2 c2
    simp only [BinaryDataLoader.loadFeature, lookupF_mapSet_self]

/-- Witness for C10: after caching `X` from category `genes`, a load of
`X` with category `tfs` against an environment with no files at all
still returns the cached vector with zero fetches. -/
theorem claimC10_cache_by_name_witness :
    BinaryDataLoader.loadFeature exEnvEmpty
      { exState with loadedFeatures := mapSet exState.loadedFeatures "X" [3] } "X" "tfs"
      = some ({ exState with loadedFeatures := mapSet exState.loadedFeatures "X" [3] },
              [3], 0) :=
  (claimC10_cache_by_name exEnvX exState "X" "genes" exBundle (encodeFeature [(0, 3)]) [3]
    rfl rfl (by decide) (by decide)).2 exEnvEmpty "tfs"

/-- Claim C3: `initializeData` is idempotent. After any successful call
(which returned `true`), a second call — under ANY environment, so no
fetch or decode of the metadata or base dataset can be involved —
performs zero fetches, leaves the module state (including `BASE_DATA`)
unchanged, and returns the same value `true`. -/
theorem claimC3_idempotent (env env2 : Env) (g g1 : RealDataConstants.GlobalState) (n : Nat)
    (h : RealDataConstants.initializeData env g = some (g1, true, n)) :
    RealDataConstants.initializeData env2 g1 = some (g1, true, 0) := by
  unfold RealDataConstants.initializeData at h ⊢
  by_cases hg : g.isInitialized = true
  · rw [if_pos hg] at h
    simp only [Option.some.injEq, Prod.mk.injEq] at h
    obtain ⟨h1, -, -⟩ := h
    rw [← h1, if_pos hg]
  · rw [if_neg hg] at h
    cases hinit : BinaryDataLoader.init env g.loader with
    | none => simp only [hinit] at h; exact absurd h (by simp)
    | some l =>
      cases hgbd : BinaryDataLoader.getBaseData l with
      | none => simp only [hinit, hgbd] at h; exact absurd h (by simp)
      | some cells =>
        simp only [hinit, hgbd, Option.some.injEq, Prod.mk.injEq] at h
        obtain ⟨h1, -, -⟩ := h
        rw [← h1]
        simp

/-- Witness for C3: the successful run over the concrete one-cell
environment, then a second call against an environment with no files at
all — still succeeds with zero fetches and the same state. -/
theorem claimC3_idempotent_witness :
    RealDataConstants.initializeData exEnvEmpty exGlobal1 = some (exGlobal1, true, 0) :=
  claimC3_idempotent exEnvInit exEnvEmpty RealDataConstants.initialGlobal exGlobal1 5
    (by decide)

/-- Claim C8: for every feature load over an initialized loader
(successful decode or the zero-filled fallback), the returned vector's
length equals the length of the base data cell sequence, and when the
backing file holds the record of `pairs`, entry `i` of the vector is
exactly the value the record lists for cell index `i` (0 when absent),
so `featureVector[i]` corresponds to `cells[i]` for all `i`. -/
theorem claimC8_alignment (env env2 : Env) (s s1 s2 : BinaryDataLoader.LoaderState)
    (cells : List Cell) (name cat : String) (v : List Word) (k : Nat)
    (pairs : List (Nat × Word))
    (hinit : BinaryDataLoader.init env s = some s1)
    (hcells : BinaryDataLoader.getBaseData s1 = some cells)
    (hmiss : lookupF s1.loadedFeatures name = none)
    (hload : BinaryDataLoader.loadFeature env2 s1 name cat = some (s2, v, k))
    (hnd : (pairs.map Prod.fst).Nodup)
    (hrange : ∀ p ∈ pairs, p.1 < cells.length)
    (hwords : ∀ p ∈ pairs, p.1 < 4294967296 ∧ p.2 < 4294967296)
    (hcount : pairs.length < 4294967296) :
    v.length = cells.length ∧
    (env2.bin (BinaryDataLoader.featurePath s1.basePath cat name)
        = some (encodeFeature pairs) →
      v = (List.range cells.length).map (fun i => (lookupNat pairs i).getD 0)) := by
  obtain ⟨bb, hbb, hlen, -, -⟩ := init_baseData env s s1 hinit
  have hcc : cells.length = bb.cellIds.length := by
    simp only [BinaryDataLoader.getBaseData, hbb, Option.some.injEq] at hcells
    rw [← hcells, hlen]
  cases hfetch : env2.bin (BinaryDataLoader.featurePath s1.basePath cat name) with
  | none =>
    simp only [BinaryDataLoader.loadFeature, hmiss, hbb, hfetch, Option.some.injEq,
      Prod.mk.injEq] at hload
    obtain ⟨-, hv, -⟩ := hload
    constructor
    · rw [← hv, List.length_replicate, hcc]
    · intro hc
      exact absurd hc (by simp)
  | some buf =>
    cases hparse : BinaryDataLoader.parseFeatureBinary bb.cellIds.length buf with
    | none =>
      simp only [BinaryDataLoader.loadFeature, hmiss, hbb, hfetch, hparse,
        Option.some.injEq, Prod.mk.injEq] at hload
      obtain ⟨-, hv, -⟩ := hload
      constructor
      · rw [← hv, List.length_replicate, hcc]
      · intro hc
        have hbufe : buf = encodeFeature pairs := by simpa using hc
        rw [hbufe, parseFeatureBinary_encode bb.cellIds.length pairs hwords hcount]
          at hparse
        exact absurd hparse (by simp)
    | some w =>
      simp only [BinaryDataLoader.loadFeature, hmiss, hbb, hfetch, hparse,
        Option.some.injEq, Prod.mk.injEq] at hload
      obtain ⟨-, hv, -⟩ := hload
      constructor
      · rw [← hv, parseFeatureBinary_length bb.cellIds.length buf w hparse, hcc]
      · intro hc
        have hbufe : buf = encodeFeature pairs := by simpa using hc
        rw [hbufe, parseFeatureBinary_encode bb.cellIds.length pairs hwords hcount]
          at hparse
        simp only [Option.some.injEq] at hparse
        rw [← hv, ← hparse, ← hcc,
          foldl_scatter_eq_map cells.length pairs hnd hrange, hcc]

/-- Witness for C8: the one-cell environment, feature `X` holding the
record `[(0, 3)]`. -/
theorem claimC8_alignment_witness :
    ([3] : List Word).length = exBundle.baseData.length ∧
    ([3] : List Word)
      = (List.range exBundle.baseData.length).map
          (fun i => (lookupNat [(0, 3)] i).getD 0) := by
  have h := claimC8_alignment exEnvInit exEnvX
    (BinaryDataLoader.mkLoader "./data/binary") exInitState
    { exInitState with loadedFeatures := mapSet exInitState.loadedFeatures "X" [3] }
    exBundle.baseData "X" "genes" [3] 1 [(0, 3)]
    (by decide) (by decide) rfl (by decide) (by decide) (by decide) (by decide) (by decide)
  exact ⟨h.1, h.2 (by decide)⟩

/-! ## Helper lemmas: the concurrent schedule of claim C1 -/

theorem getElem?_replicate_append {α : Type} (x y : α) (l : List α) (a : Nat) :
    (List.replicate a x ++ y :: l)[a]? = some y := by
  induction a with
  | zero => simp
  | succ m ih =>
    rw [List.replicate_succ, List.cons_append, List.getElem?_cons_succ]
    exact ih

theorem replicate_cons_comm {α : Type} (x : α) (a : Nat) (l : List α) :
    List.replicate a x ++ x :: l = x :: (List.replicate a x ++ l) := by
  induction a with
  | zero => rfl
  | succ m ih =>
    simp only [List.replicate_succ, List.cons_append, ih]

theorem set_replicate_append {α : Type} (x y z : α) (l : List α) (a : Nat) :
    (List.replicate a x ++ y :: l).set a z = List.replicate a x ++ z :: l := by
  induction a with
  | zero => rfl
  | succ m ih =>
    rw [List.replicate_succ, List.cons_append, List.set_cons_succ, ih, List.cons_append]

theorem crun_phaseA (env : Env) (name cat : String) (s : BinaryDataLoader.LoaderState)
    (hmiss : lookupF s.loadedFeatures name = none) :
    ∀ (b a c : Nat),
      ConcModel.crun env name cat
        { loader := s,
          tasks := List.replicate a { phase := 1, result := [] }
            ++ List.replicate b { phase := 0, result := [] },
          fetchCount := c } (List.range' a b)
      = { loader := s, tasks := List.replicate (a + b) { phase := 1, result := [] },
          fetchCount := c + b } := by
  intro b
  induction b with
  | zero => intro a c; simp [ConcModel.crun, List.range']
  | succ m ih =>
    intro a c
    rw [List.range'_succ]
    show ConcModel.crun env name cat
      (ConcModel.cstep env name cat
        { loader := s,
          tasks := List.replicate a { phase := 1, result := [] }
            ++ List.replicate (m + 1) { phase := 0, result := [] },
          fetchCount := c } a) (List.range' (a + 1) m) = _
    have hstep : ConcModel.cstep env name cat
        { loader := s,
          tasks := List.replicate a { phase := 1, result := [] }
            ++ List.replicate (m + 1) { phase := 0, result := [] },
          fetchCount := c } a
        = { loader := s,
            tasks := List.replicate (a + 1) { phase := 1, result := [] }
              ++ List.replicate m { phase := 0, result := [] },
            fetchCount := c + 1 } := by
      simp only [ConcModel.cstep, List.replicate_succ, getElem?_replicate_append, hmiss,
        set_replicate_append]
      simp only [replicate_cons_comm, List.cons_append]
    rw [hstep, ih (a + 1) (c + 1)]
    have e1 : a + 1 + m = a + (m + 1) := by omega
    have e2 : c + 1 + m = c + (m + 1) := by omega
    rw [e1, e2]

theorem crun_phaseB (env : Env) (name cat : String) (s : BinaryDataLoader.LoaderState)
    (bb : BaseBundle) (buf : Bytes) (v : List Word)
    (hbd : s.baseData = some bb)
    (hbuf : env.bin (BinaryDataLoader.featurePath s.basePath cat name) = some buf)
    (hparse : BinaryDataLoader.parseFeatureBinary bb.cellIds.length buf = some v)
    (hstable : mapSet s.loadedFeatures name v = s.loadedFeatures) :
    ∀ (b a c : Nat),
      ConcModel.crun env name cat
        { loader := s,
          tasks := List.replicate a { phase := 2, result := v }
            ++ List.replicate b { phase := 1, result := [] },
          fetchCount := c } (List.range' a b)
      = { loader := s, tasks := List.replicate (a + b) { phase := 2, result := v },
          fetchCount := c } := by
  intro b
  induction b with
  | zero => intro a c; simp [ConcModel.crun, List.range']
  | succ m ih =>
    intro a c
    rw [List.range'_succ]
    show ConcModel.crun env name cat
      (ConcModel.cstep env name cat
        { loader := s,
          tasks := List.replicate a { phase := 2, result := v }
            ++ List.replicate (m + 1) { phase := 1, result := [] },
          fetchCount := c } a) (List.range' (a + 1) m) = _
    have hs : BinaryDataLoader.LoaderState.mk s.basePath s.metadata (some bb)
        (mapSet s.loadedFeatures name v) = s := by
      rw [← hbd, hstable]
    have hstep : ConcModel.cstep env name cat
        { loader := s,
          tasks := List.replicate a { phase := 2, result := v }
            ++ List.replicate (m + 1) { phase := 1, result := [] },
          fetchCount := c } a
        = { loader := s,
            tasks := List.replicate (a + 1) { phase := 2, result := v }
              ++ List.replicate m { phase := 1, result := [] },
            fetchCount := c } := by
      simp only [ConcModel.cstep, List.replicate_succ, getElem?_replicate_append, hbd,
        hbuf, hparse, set_replicate_append, hs]
      simp only [replicate_cons_comm, List.cons_append]
    rw [hstep, ih (a + 1) c]
    have e1 : a + 1 + m = a + (m + 1) := by omega
    rw [e1]

/-- Counterexample to claim C1 as stated: two concurrent `loadFeature`
calls for the uncached feature `X`, both issued before either completes
(schedule `[0, 1, 0, 1]`: both synchronous prefixes run, then both
continuations), perform TWO underlying fetches of `genes/X.bin` — not
exactly one. `loadFeature` has no pending-request bookkeeping, so each
miss starts its own fetch. -/
theorem claimC1_counterexample :
    (ConcModel.crun exEnvX "X" "genes" (ConcModel.concStart exState 2)
      [0, 1, 0, 1]).fetchCount = 2 ∧
    ¬(ConcModel.crun exEnvX "X" "genes" (ConcModel.concStart exState 2)
      [0, 1, 0, 1]).fetchCount = 1 := by
  decide

/-- Claim C1 as amended: for every N, N concurrent `loadFeature` calls
for the same uncached key, all issued before any completes, perform N
underlying fetches (one per call — there is no coalescing), and all N
calls still resolve to element-wise-equal vectors (each decodes the same
fetched bytes). -/
theorem claimC1_no_coalescing (env : Env) (s : BinaryDataLoader.LoaderState)
    (name cat : String) (bb : BaseBundle) (buf : Bytes) (v : List Word) (N : Nat)
    (hmiss : lookupF s.loadedFeatures name = none)
    (hbd : s.baseData = some bb)
    (hbuf : env.bin (BinaryDataLoader.featurePath s.basePath cat name) = some buf)
    (hparse : BinaryDataLoader.parseFeatureBinary bb.cellIds.length buf = some v) :
    (ConcModel.crun env name cat (ConcModel.concStart s N)
      (List.range N ++ List.range N)).fetchCount = N ∧
    ∀ t ∈ (ConcModel.crun env name cat (ConcModel.concStart s N)
      (List.range N ++ List.range N)).tasks, t = { phase := 2, result := v } := by
  have hsplit : ConcModel.crun env name cat (ConcModel.concStart s N)
      (List.range N ++ List.range N)
      = ConcModel.crun env name cat
          (ConcModel.crun env name cat (ConcModel.concStart s N) (List.range N))
          (List.range N) := by
    simp [ConcModel.crun, List.foldl_append]
  have hA : ConcModel.crun env name cat (ConcModel.concStart s N) (List.range N)
      = { loader := s, tasks := List.replicate N { phase := 1, result := [] },
          fetchCount := N } := by
    have h := crun_phaseA env name cat s hmiss N 0 0
    simpa [ConcModel.concStart, List.range_eq_range'] using h
  rw [hsplit, hA]
  cases N with
  | zero =>
    constructor
    · rfl
    · intro t ht
      simp [ConcModel.crun] at ht
  | succ m =>
    have hstep : ConcModel.cstep env name cat
        { loader := s, tasks := List.replicate (m + 1) { phase := 1, result := [] },
          fetchCount := m + 1 } 0
        = { loader := BinaryDataLoader.LoaderState.mk s.basePath s.metadata (some bb)
              (mapSet s.loadedFeatures name v),
            tasks := { phase := 2, result := v }
              :: List.replicate m { phase := 1, result := [] },
            fetchCount := m + 1 } := by
      simp only [ConcModel.cstep, List.replicate_succ, List.getElem?_cons_zero, hbd, hbuf,
        hparse, List.set_cons_zero]
    have hB := crun_phaseB env name cat
      (BinaryDataLoader.LoaderState.mk s.basePath s.metadata (some bb)
        (mapSet s.loadedFeatures name v)) bb buf v rfl hbuf hparse
      (mapSet_idem s.loadedFeatures name v) m 1 (m + 1)
    have hrun : ConcModel.crun env name cat
        { loader := s, tasks := List.replicate (m + 1) { phase := 1, result := [] },
          fetchCount := m + 1 } (List.range (m + 1))
        = { loader := BinaryDataLoader.LoaderState.mk s.basePath s.metadata (some bb)
              (mapSet s.loadedFeatures name v),
            tasks := List.replicate (1 + m) { phase := 2, result := v },
            fetchCount := m + 1 } := by
      rw [List.range_eq_range', List.range'_succ]
      show ConcModel.crun env name cat
        (ConcModel.cstep env name cat
          { loader := s, tasks := List.replicate (m + 1) { phase := 1, result := [] },
            fetchCount := m + 1 } 0) (List.range' 1 m) = _
      rw [hstep]
      exact hB
    rw [hrun]
    constructor
    · rfl
    · intro t ht
      exact List.eq_of_mem_replicate ht

/-- Witness for the amended C1 at N = 2 over the concrete one-cell
dataset: two fetches, both tasks resolved with the decoded vector. -/
theorem claimC1_no_coalescing_witness :
    (ConcModel.crun exEnvX "X" "genes" (ConcModel.concStart exState 2)
      (List.range 2 ++ List.range 2)).fetchCount = 2 ∧
    ∀ t ∈ (ConcModel.crun exEnvX "X" "genes" (ConcModel.concStart exState 2)
      (List.range 2 ++ List.range 2)).tasks,
      t = { phase := 2, result := [3] } :=
  claimC1_no_coalescing exEnvX exState "X" "genes" exBundle (encodeFeature [(0, 3)]) [3] 2
    rfl rfl (by decide) (by decide)

/-! ## Claim C4: the returned vector is an alias into the cache -/

theorem getD_set_self {α : Type} (l : List α) (a : Nat) (x d : α) (h : a < l.length) :
    (l.set a x).getD a d = x := by
  rw [List.getD_eq_getElem?_getD, List.getElem?_set_self h]
  rfl

/-- Counterexample to claim C4 as stated: over a one-cell dataset, the
first `loadFeature("X")` caches the array object at address 0 holding
`[3]`; the caller then mutates the returned object (`arr[0] = 99`); the
subsequent `loadFeature("X")` returns that same address, which now
dereferences to `[99] ≠ [3]` — the caller's mutation DID change what a
later load returns. -/
theorem claimC4_counterexample :
    RefModel.loadFeatureRef exEnvX 1 { heap := [], cache := [] } "X" "genes"
        "./data/binary"
      = some ({ heap := [[3]], cache := [("X", 0)] }, 0, 1) ∧
    RefModel.deref { heap := [[3]], cache := [("X", 0)] } 0 = [3] ∧
    RefModel.loadFeatureRef exEnvX 1
        (RefModel.writeCell { heap := [[3]], cache := [("X", 0)] } 0 0 99) "X" "genes"
        "./data/binary"
      = some (RefModel.writeCell { heap := [[3]], cache := [("X", 0)] } 0 0 99, 0, 0) ∧
    RefModel.deref (RefModel.writeCell { heap := [[3]], cache := [("X", 0)] } 0 0 99) 0
      = [99] ∧
    ([99] : List Word) ≠ [3] := by
  decide

/-- Claim C4 as amended: for every cached feature, `loadFeature` returns
the cached array object itself — the very address stored in the cache,
not a copy — so a caller writing through the returned reference changes
the array a subsequent `loadFeature` for the same feature returns. -/
theorem claimC4_alias (env : Env) (cellCount : Nat) (s : RefModel.RefState)
    (name cat bp : String) (addr i : Nat) (w : Word)
    (hcache : lookupF s.cache name = some addr)
    (haddr : addr < s.heap.length) :
    RefModel.loadFeatureRef env cellCount s name cat bp = some (s, addr, 0) ∧
    RefModel.loadFeatureRef env cellCount (RefModel.writeCell s addr i w) name cat bp
      = some (RefModel.writeCell s addr i w, addr, 0) ∧
    RefModel.deref (RefModel.writeCell s addr i w) addr
      = (RefModel.deref s addr).set i w := by
  refine ⟨?_, ?_, ?_⟩
  · simp only [RefModel.loadFeatureRef, hcache]
  · simp only [RefModel.loadFeatureRef, RefModel.writeCell, hcache]
  · simp only [RefModel.deref, RefModel.writeCell]
    exact getD_set_self s.heap addr ((s.heap.getD addr []).set i w) [] haddr

/-- Witness for the amended C4 at the counterexample's state. -/
theorem claimC4_alias_witness :
    RefModel.loadFeatureRef exEnvX 1 { heap := [[3]], cache := [("X", 0)] } "X" "genes"
        "./data/binary"
      = some ({ heap := [[3]], cache := [("X", 0)] }, 0, 0) ∧
    RefModel.loadFeatureRef exEnvX 1
        (RefModel.writeCell { heap := [[3]], cache := [("X", 0)] } 0 0 99) "X" "genes"
        "./data/binary"
      = some (RefModel.writeCell { heap := [[3]], cache := [("X", 0)] } 0 0 99, 0, 0) ∧
    RefModel.deref (RefModel.writeCell { heap := [[3]], cache := [("X", 0)] } 0 0 99) 0
      = (RefModel.deref { heap := [[3]], cache := [("X", 0)] } 0).set 0 99 :=
  claimC4_alias exEnvX 1 { heap := [[3]], cache := [("X", 0)] } "X" "genes"
    "./data/binary" 0 0 99 rfl (by decide)
